import Mathlib

/- Verification of the TeamCity build-log normalizer: a shallow embedding of
   the line parser (logparse), the context tracker (treeize) and the rendering
   engine (cleanupLog) of the Go source.  Lines are modelled as `List Char`;
   the splitting of the byte stream into lines done by bufio.Scanner (split on
   a newline, drop one carriage return before it) is modelled by `splitLines`.
   The JSON decoding performed by encoding/json is an external library call;
   the scan is parameterised by a decode oracle `decode : List Char -> Option
   testEvent` standing for a successful json.Unmarshal into the testEvent
   shape, with the non-empty-Action guard of the source kept explicit. -/

namespace TCRun

/-- Go struct testEvent: one structured test-result event decoded from a JSON
payload (Elapsed, a float64 in Go, is modelled as a rational number). -/
structure testEvent where
  Time : List Char
  Action : List Char
  Package : List Char
  Test : List Char
  Elapsed : ℚ
  Output : List Char
deriving DecidableEq

/-- Go struct logline: one parsed log line. -/
structure logline where
  raw : List Char
  time : Int
  indent : Nat
  tags : List (List Char)
  text : List Char
  addtext : List Char
  testEvent : Option testEvent
deriving DecidableEq

/-- Result of logparse: nil (noise), a fatal parse error (Go panic), or a
parsed record. -/
inductive ParseResult where
  | noise : ParseResult
  | fatal : String → ParseResult
  | ok : logline → ParseResult
deriving DecidableEq

def ParseResult.isFatal : ParseResult → Bool
  | .fatal _ => true
  | _ => false

/-- Go closure expectByte: consume one expected byte or fail. -/
def expectByteF (b : Char) (l : List Char) : Option (List Char) :=
  match l with
  | [] => none
  | c :: r => if c = b then some r else none

/-- Go closure expectLen: consume n characters or fail. -/
def expectLenF (n : Nat) (l : List Char) : Option (List Char × List Char) :=
  if n ≤ l.length then some (l.take n, l.drop n) else none

/-- Decimal digits of a natural number (fuel-driven; fuel n suffices since
n/10 reaches 0 within n steps). -/
def natDigitsAux : Nat → Nat → List Char → List Char
  | 0, _, acc => acc
  | fuel + 1, n, acc =>
    if n = 0 then acc
    else natDigitsAux fuel (n / 10) (Char.ofNat (48 + n % 10) :: acc)

def natDigits (n : Nat) : List Char :=
  if n = 0 then ['0'] else natDigitsAux n n []

def digitsVal (l : List Char) : Nat :=
  l.foldl (fun a c => a * 10 + (c.toNat - 48)) 0

/-- Go strconv.Atoi with the error ignored: optional sign followed by decimal
digits gives the value, anything else gives 0 (the value Atoi returns next to
a syntax error). -/
def atoi (l : List Char) : Int :=
  match l with
  | [] => 0
  | c :: r =>
    if c = '-' then (if r ≠ [] ∧ r.all Char.isDigit then -(digitsVal r : Int) else 0)
    else if c = '+' then (if r ≠ [] ∧ r.all Char.isDigit then (digitsVal r : Int) else 0)
    else if (c :: r).all Char.isDigit then (digitsVal (c :: r) : Int) else 0

/-- Indentation loop of logparse: count leading tab characters. -/
def countTabs : List Char → Nat × List Char
  | [] => (0, [])
  | c :: r =>
    if c = '\t' then
      let p := countTabs r
      (p.1 + 1, p.2)
    else (0, c :: r)

/-- Inner loop of the tag scan: find the first right bracket, returning the
characters before it and the remainder after it. -/
def splitAtRB : List Char → Option (List Char × List Char)
  | [] => none
  | c :: r =>
    if c = ']' then some ([], r)
    else
      match splitAtRB r with
      | none => none
      | some p => some (c :: p.1, p.2)

/-- Tag loop of logparse: repeatedly consume an optional space and a
bracketed label; an unterminated bracket ends the loop with the opening
bracket (and the optional space) already consumed, exactly as in the source.
Fuel-driven for structural recursion; every iteration consumes at least two
characters, so fuel equal to the input length never runs out. -/
def parseTagsAux : Nat → List Char → List (List Char) × List Char
  | 0, rest => ([], rest)
  | fuel + 1, rest =>
    let r1 := if rest.head? = some ' ' then rest.tail else rest
    if r1.head? = some '[' then
      let r2 := r1.tail
      match splitAtRB r2 with
      | some p =>
        let pr := parseTagsAux fuel p.2
        (p.1 :: pr.1, pr.2)
      | none => ([], r2)
    else ([], r1)

def parseTags (rest : List Char) : List (List Char) × List Char :=
  parseTagsAux rest.length rest

/-- Go func logparse: parse one raw line into a record.  A nonempty line not
starting with a left bracket is noise; otherwise the fixed
timestamp/flag/indent/tag grammar is consumed, with a panic (fatal) on
violation.  Note that the noise guard requires the line to be nonempty: the
empty line falls through to the grammar and fails fatally. -/
def logparse (line : List Char) : ParseResult :=
  if 0 < line.length ∧ line.head? ≠ some '[' then .noise
  else
    match expectByteF '[' line with
    | none => .fatal "expecting ["
    | some r1 =>
      match expectLenF 2 r1 with
      | none => .fatal "expecting 2 characters"
      | some (hh, r2) =>
        match expectByteF ':' r2 with
        | none => .fatal "expecting :"
        | some r3 =>
          match expectLenF 2 r3 with
          | none => .fatal "expecting 2 characters"
          | some (mm, r4) =>
            match expectByteF ':' r4 with
            | none => .fatal "expecting :"
            | some r5 =>
              match expectLenF 2 r5 with
              | none => .fatal "expecting 2 characters"
              | some (ss, r6) =>
                match expectByteF ']' r6 with
                | none => .fatal "expecting ]"
                | some r7 =>
                  match expectLenF 1 r7 with
                  | none => .fatal "expecting 1 characters"
                  | some (_, r8) =>
                    match expectByteF ':' r8 with
                    | none => .fatal "expecting :"
                    | some r9 =>
                      let tb := countTabs r9
                      let tg := parseTags tb.2
                      .ok ⟨line, atoi hh * (60 * 60) + atoi mm * 60 + atoi ss,
                           tb.1, tg.1, tg.2, [], none⟩

example : logparse "hello".toList = .noise := by decide

example : (logparse "".toList).isFatal = true := by decide

example : logparse "[00:01:02]i:\t\t[A] [B C] rest".toList =
    .ok ⟨"[00:01:02]i:\t\t[A] [B C] rest".toList, 62, 2,
         ["A".toList, "B C".toList], "rest".toList, [], none⟩ := by decide

/-- Go strings.HasPrefix. -/
def startsWithL (p l : List Char) : Bool :=
  decide (l.take p.length = p)

/-- Go strings.HasSuffix. -/
def endsWithL (s l : List Char) : Bool :=
  decide (s.length ≤ l.length ∧ l.drop (l.length - s.length) = s)

/-- The capability-flag set of cleanupLog (Go: bits of the uint16 mode). -/
structure Mode where
  rawText : Bool
  showHeader : Bool
  showTestOutput : Bool
  showRoot : Bool
  showStep1 : Bool
  showStep2 : Bool
  showStep2Top : Bool
  showStep2OutputActions : Bool
  skipBeforeDwz : Bool
  skipJson : Bool
  skipBeforeMakeTest : Bool
  massaged : Bool
  showOnlyFailed : Bool
deriving DecidableEq

/-- The switch on verbose in cleanupLog: levels 0, 1, 2 select the three
filtered policies; every other level falls through to raw text. -/
def modeOf (verbose : Int) : Mode :=
  if verbose = 0 then
    ⟨false, true, false, false, false, false, true, false, false, true, true, true, true⟩
  else if verbose = 1 then
    ⟨false, true, false, false, false, false, true, true, true, true, false, true, false⟩
  else if verbose = 2 then
    ⟨false, true, true, true, true, true, false, false, false, true, false, true, false⟩
  else
    ⟨true, true, false, false, false, false, false, false, false, false, false, false, false⟩

/-- The mutable state of one cleanupLog scan: the context stack, the timing
and phase flags, the only-failed buffer (each entry paired with its decoded
event, which the source guarantees is present) and the output emitted so
far, one printed line per list entry. -/
structure ScanSt where
  stack : List (List Char)
  lastTime : Int
  first : Bool
  firstMassaged : Bool
  afterDwz : Bool
  afterMakeTest : Bool
  cached : List (logline × testEvent)
  out : List (List Char)
deriving DecidableEq

def initSt : ScanSt := ⟨[], 0, true, true, false, false, [], []⟩

def sStep22 : List Char := "Step 2/2".toList
def sStep11 : List Char := "Step 1/1".toList
def sStep12 : List Char := "Step 1/2".toList
def sTestOutput : List Char := "Test Output".toList

/-- Go closure topOfStackIs. -/
def topOfStackIs (stack : List (List Char)) (s : List Char) : Bool :=
  decide (stack.getLast? = some s)

/-- Go closure stackHas. -/
def stackHas (stack : List (List Char)) (s : List Char) : Bool :=
  decide (s ∈ stack)

/-- The build-step test of the scan (source line 242): the innermost slot is
one of the two spellings of the primary build step. -/
def buildStepOf (stack : List (List Char)) : Bool :=
  topOfStackIs stack sStep22 || topOfStackIs stack sStep11

/-- The any-ancestor filter of the step-2 display rule (source line 344). -/
def inStep2 (stack : List (List Char)) : Bool :=
  stackHas stack sStep22 || stackHas stack sStep11

/-- Go closure treeize: truncate or extend the stack to the record's indent
(slots beyond the previous length are zero-filled) and overwrite the last
len(tags) slots with the record's tags.  The Go code panics when the record
has more tags than indentation (negative index) or when the indent exceeds
the stack's fixed capacity of 20 (reslice beyond capacity); both are
modelled as none. -/
def treeize (stack : List (List Char)) (ll : logline) : Option (List (List Char)) :=
  if ll.indent ≤ 20 ∧ ll.tags.length ≤ ll.indent then
    let s1 := stack.take ll.indent ++ List.replicate (ll.indent - stack.length) []
    some (s1.take (ll.indent - ll.tags.length) ++ ll.tags)
  else none

/-- Go fmt verb used for the delta column: a space flag and width four
("% 4d"). -/
def fmtDelta (d : Int) : List Char :=
  let base := (if d < 0 then ['-'] else [' ']) ++ natDigits d.natAbs
  List.replicate (4 - base.length) ' ' ++ base

/-- The trailing-newline strip of emitMassaged: drop one final newline and,
only if one was dropped, one final carriage return before it. -/
def stripNLCR (l : List Char) : List Char :=
  if l.getLast? = some '\n' then
    let d := l.dropLast
    if d.getLast? = some '\r' then d.dropLast else d
  else l

def dtHeader : List Char := "  ΔT\tTEXT".toList

/-- Go closure emitMassaged: print the one-time column header, then a row
with the positive time delta (blank when zero or negative) and the cleaned
text, and remember the time of this emission. -/
def emitMassaged (t : Int) (text : List Char) (st : ScanSt) : ScanSt :=
  let st := if st.firstMassaged then
      { st with firstMassaged := false, out := st.out ++ [dtHeader] }
    else st
  let text := stripNLCR text
  let st := if 0 < t - st.lastTime then
      { st with out := st.out ++ [fmtDelta (t - st.lastTime) ++ '\t' :: text] }
    else
      { st with out := st.out ++ ["    \t".toList ++ text] }
  { st with lastTime := t }

/-- Go closure emitText: massaged emission of the record's text, guarded by
the per-record already-emitted latch. -/
def emitTextF (ll : logline) (p : Bool × ScanSt) : Bool × ScanSt :=
  if p.1 then p else (true, emitMassaged ll.time ll.text p.2)

/-- Go closure emitRaw: verbatim emission of the raw line, guarded by the
per-record already-emitted latch. -/
def emitRawF (ll : logline) (p : Bool × ScanSt) : Bool × ScanSt :=
  if p.1 then p else (true, { p.2 with out := p.2.out ++ [ll.raw] })

/-- Display rule for records with an empty context path (source line 323). -/
def ruleShowRoot (mode : Mode) (ll : logline) (p : Bool × ScanSt) : Bool × ScanSt :=
  if mode.showRoot && decide (p.2.stack = []) then
    if mode.massaged then emitTextF ll p else emitRawF ll p
  else p

/-- Display rule for records under a Step 1/2 ancestor (source line 333). -/
def ruleShowStep1 (mode : Mode) (ll : logline) (p : Bool × ScanSt) : Bool × ScanSt :=
  if mode.showStep1 && stackHas p.2.stack sStep12 then
    if mode.massaged then emitTextF ll p else emitRawF ll p
  else p

/-- The shouldShow computation of the step-2 display rule (source lines
345-357); note that the innermost-slot-only restriction tests only the
"Step 2/2" spelling. -/
def shouldShowStep2 (mode : Mode) (stack : List (List Char))
    (aDwz aMT hasEvent : Bool) : Bool :=
  !(mode.skipBeforeDwz && !aDwz) && !(mode.skipJson && hasEvent) &&
  !(mode.showStep2Top && !topOfStackIs stack sStep22) &&
  !(mode.skipBeforeMakeTest && !aMT)

/-- Display rule for records inside a primary build step (source lines
343-374). -/
def ruleStep2 (mode : Mode) (ll : logline) (p : Bool × ScanSt) : Bool × ScanSt :=
  if (mode.showStep2 || mode.showStep2Top) && inStep2 p.2.stack then
    if shouldShowStep2 mode p.2.stack p.2.afterDwz p.2.afterMakeTest ll.testEvent.isSome then
      if mode.massaged then
        if !topOfStackIs p.2.stack sTestOutput then emitTextF ll p else p
      else
        if topOfStackIs p.2.stack sTestOutput then
          if mode.showTestOutput then emitRawF ll p else p
        else emitRawF ll p
    else p
  else p

/-- Display rule for the auxiliary line of a Test Output record (source
lines 376-384); it does not consult the already-emitted latch. -/
def ruleTestOutput (mode : Mode) (ll : logline) (p : Bool × ScanSt) : Bool × ScanSt :=
  if mode.showTestOutput && topOfStackIs p.2.stack sTestOutput then
    if mode.massaged then (p.1, emitMassaged ll.time ll.addtext p.2)
    else (p.1, { p.2 with out := p.2.out ++ [ll.addtext] })
  else p

/-- Display rule for build-step lines whose text starts with "Go " in the
only-failed policy (source line 386). -/
def ruleGoLine (mode : Mode) (ll : logline) (buildStep : Bool)
    (p : Bool × ScanSt) : Bool × ScanSt :=
  if mode.showOnlyFailed && buildStep && startsWithL "Go ".toList ll.text then
    emitTextF ll p
  else p

/-- Display rule surfacing every output action (source lines 390-394); it
does not consult the already-emitted latch. -/
def ruleOutputActions (mode : Mode) (ll : logline) (p : Bool × ScanSt) : Bool × ScanSt :=
  match ll.testEvent with
  | some te =>
    if mode.showStep2OutputActions && decide (te.Action = "output".toList) then
      (p.1, emitMassaged ll.time te.Output p.2)
    else p
  | none => p

/-- Display rule printing a FAIL line for fail events outside the only-failed
and output-action policies (source lines 396-398). -/
def ruleFailLine (mode : Mode) (ll : logline) (p : Bool × ScanSt) : Bool × ScanSt :=
  match ll.testEvent with
  | some te =>
    if !mode.showOnlyFailed && decide (te.Action = "fail".toList) &&
        !mode.showStep2OutputActions then
      (p.1, emitMassaged ll.time ("FAIL\t".toList ++ te.Package) p.2)
    else p
  | none => p

/-- Go closure dumpCached: emit the output fragment of every buffered output
event in buffer order, each at its own record's time (the source reassigns
the loop variable so emitMassaged sees the cached record's time). -/
def dumpCachedF : List (logline × testEvent) → ScanSt → ScanSt
  | [], st => st
  | c :: rest, st =>
    dumpCachedF rest
      (if c.2.Action = "output".toList then
        emitMassaged c.1.time c.2.Output st
      else st)

/-- Fractional decimal digits of r/d (0 < d, r < d), fuel-driven; the
expansion stops when the remainder reaches zero, so a terminating decimal is
printed without trailing zeros, as Go's %g does. -/
def fracDigits : Nat → Nat → Nat → List Char
  | 0, _, _ => []
  | fuel + 1, r, d =>
    if r = 0 then []
    else Char.ofNat (48 + r * 10 / d) :: fracDigits fuel (r * 10 % d) d

/-- Go fmt verb %g applied to the Elapsed field, modelled on rationals:
shortest plain decimal form, no decimal point for integers, no trailing
zeros (exact for the terminating decimals float64 test timings denote). -/
def formatG (q : ℚ) : List Char :=
  let sign : List Char := if q < 0 then ['-'] else []
  let n := q.num.natAbs
  let d := q.den
  if n % d = 0 then sign ++ natDigits (n / d)
  else sign ++ natDigits (n / d) ++ '.' :: fracDigits 30 (n % d) d

example : formatG (mkRat 3 2) = "1.5".toList := by decide

example : formatG 7 = "7".toList := by decide

/-- The only-failed aggregation (source lines 400-441): every decoded event
is appended to the buffer, then dispatched on its test identifier and
action. -/
def ruleOnlyFailed (mode : Mode) (ll : logline) (p : Bool × ScanSt) : Bool × ScanSt :=
  match ll.testEvent with
  | some te =>
    if mode.showOnlyFailed then
      let st := p.2
      let cached1 := st.cached ++ [(ll, te)]
      let st := { st with cached := cached1 }
      if decide (te.Test = []) then
        if decide (te.Action = "pass".toList) then
          (p.1, { emitMassaged ll.time
                    (te.Package ++ '\t' :: (formatG te.Elapsed ++ ['s'])) st with
                  cached := [] })
        else if decide (te.Action = "skip".toList) then
          (p.1, { emitMassaged ll.time
                    (te.Package ++ "\t[no test files]".toList) st with
                  cached := [] })
        else if decide (te.Action = "output".toList) then (p.1, st)
        else if decide (te.Action = "fail".toList) then
          let st2 := dumpCachedF cached1 { st with cached := [] }
          (p.1, { emitMassaged ll.time (te.Package ++ "\tFAIL".toList) st2 with
                  cached := [] })
        else
          (p.1, { emitMassaged ll.time (te.Package ++ '\t' :: te.Action) st with
                  cached := [] })
      else
        if decide (te.Action = "pass".toList) then (p.1, { st with cached := [] })
        else if decide (te.Action = "fail".toList) then
          (p.1, dumpCachedF cached1 { st with cached := [] })
        else (p.1, st)
    else p
  | none => p

/-- The display-rule cascade applied to one record (source lines 286-441),
threading the per-record already-emitted latch. -/
def processRecord (mode : Mode) (ll : logline) (buildStep : Bool) (st : ScanSt) : ScanSt :=
  let p := (false, st)
  let p := ruleShowRoot mode ll p
  let p := ruleShowStep1 mode ll p
  let p := ruleStep2 mode ll p
  let p := ruleTestOutput mode ll p
  let p := ruleGoLine mode ll buildStep p
  let p := ruleOutputActions mode ll p
  let p := ruleFailLine mode ll p
  let p := ruleOnlyFailed mode ll p
  p.2

/-- Per-record bookkeeping before the display rules (source lines 242-284):
the build-step test, the structured-event decode attempt (only inside a
primary build step, on a payload starting with a left brace, kept only when
the action is non-empty), the three one-shot phase-flag updates, and the
first-record time initialisation. -/
def stepRecord (decode : List Char → Option testEvent) (mode : Mode)
    (ll : logline) (st : ScanSt) : ScanSt :=
  let buildStep := buildStepOf st.stack
  let ll := if buildStep && decide (ll.text.head? = some (Char.ofNat 123)) then
      match decode ll.text with
      | some te => if decide (te.Action ≠ []) then { ll with testEvent := some te } else ll
      | none => ll
    else ll
  let st := if !st.afterDwz && buildStep && startsWithL "+ dwz --version".toList ll.text then
      { st with afterDwz := true }
    else st
  let st := if !st.afterMakeTest && buildStep && startsWithL "+ make test".toList ll.text then
      { st with afterMakeTest := true }
    else st
  let st := if (!st.afterDwz || !st.afterMakeTest) && buildStep &&
        startsWithL "Finding latest patch".toList ll.text then
      { st with afterDwz := true, afterMakeTest := true }
    else st
  let st := if st.first then { st with first := false, lastTime := ll.time } else st
  processRecord mode ll buildStep st

/-- Result of a cleanupLog run: the printed lines, with a fatal outcome
(Go panic) also carrying whatever was printed before it. -/
inductive RunResult where
  | ok : List (List Char) → RunResult
  | fatal : List (List Char) → String → RunResult
deriving DecidableEq

def RunResult.output : RunResult → List (List Char)
  | .ok o => o
  | .fatal o _ => o

/-- Outcome of looking at one line of the main scan: stop with a result,
skip to the next line with an updated state, or process a parsed record. -/
inductive LineOut where
  | stop : RunResult → LineOut
  | skipLine : ScanSt → LineOut
  | runRec : logline → ScanSt → LineOut
deriving DecidableEq

/-- The per-line head of the main scan (source lines 212-234): raw
passthrough, the two sentinel lines, noise skipping and the context update
of a parsed record. -/
def lineStage (mode : Mode) (st : ScanSt) (l : List Char) : LineOut :=
  if mode.rawText then .skipLine { st with out := st.out ++ [l] }
  else if endsWithL " tests processed.".toList l then
    .stop (.ok (st.out ++ (if mode.showHeader then [l] else [])))
  else if startsWithL "Current time: ".toList l then
    .stop (.ok (st.out ++ [l]))
  else
    match logparse l with
    | .noise => .skipLine st
    | .fatal m => .stop (.fatal st.out m)
    | .ok ll =>
      match treeize st.stack ll with
      | none => .stop (.fatal st.out "index out of range")
      | some stk => .runRec ll { st with stack := stk }

/-- The main scan of cleanupLog (source lines 211-442): per-line head,
eager consumption of the auxiliary Test Output line, then the per-record
processing. -/
def scanLoop (decode : List Char → Option testEvent) (mode : Mode) :
    ScanSt → List (List Char) → RunResult
  | st, [] => .ok st.out
  | st, l :: rest =>
    match lineStage mode st l with
    | .stop r => r
    | .skipLine st1 => scanLoop decode mode st1 rest
    | .runRec ll st1 =>
      if topOfStackIs st1.stack sTestOutput then
        match rest with
        | [] => .fatal st1.out "test output not followed by a line"
        | l2 :: rest2 =>
          scanLoop decode mode (stepRecord decode mode { ll with addtext := l2 } st1) rest2
      else scanLoop decode mode (stepRecord decode mode ll st1) rest

/-- The header copy loop of cleanupLog (source lines 167-174): every line up
to and including the first blank line is echoed when headers are shown and
removed from the remainder either way. -/
def headerScan (showH : Bool) : List (List Char) → List (List Char) × List (List Char)
  | [] => ([], [])
  | l :: rest =>
    let echoed : List (List Char) := if showH then [l] else []
    if l = [] then (echoed, rest)
    else
      let pr := headerScan showH rest
      (echoed ++ pr.1, pr.2)

/-- Go func cleanupLog, on an input already split into lines. -/
def cleanupLog (decode : List Char → Option testEvent) (verbose : Int)
    (input : List (List Char)) : RunResult :=
  let mode := modeOf verbose
  let h := headerScan mode.showHeader input
  scanLoop decode mode { initSt with out := h.1 } h.2

/-- The carriage-return strip of bufio.ScanLines: one final '\r' of a token
is dropped. -/
def dropCRf (l : List Char) : List Char :=
  if l.getLast? = some '\r' then l.dropLast else l

def splitLinesAux : List Char → List Char → List (List Char)
  | [], acc => if acc = [] then [] else [dropCRf acc.reverse]
  | c :: rest, acc =>
    if c = '\n' then dropCRf acc.reverse :: splitLinesAux rest []
    else splitLinesAux rest (c :: acc)

/-- bufio.Scanner with the default ScanLines split: tokens are the data
between newlines, each with one trailing carriage return dropped; data after
the last newline forms a final token when nonempty. -/
def splitLines (b : List Char) : List (List Char) :=
  splitLinesAux b []

/-- The byte stream written by the scan: each printed line followed by a
newline (fmt.Printf "%s\n"). -/
def joinLines : List (List Char) → List Char
  | [] => []
  | l :: rest => l ++ '\n' :: joinLines rest

/-- A raw-verbosity run of the normalizer at the byte level. -/
def rawBytes (b : List Char) : List Char :=
  joinLines (cleanupLog (fun _ => none) 3 (splitLines b)).output

theorem scanLoop_raw (decode : List Char → Option testEvent) (mode : Mode)
    (h : mode.rawText = true) :
    ∀ (ls : List (List Char)) (st : ScanSt),
      scanLoop decode mode st ls = .ok (st.out ++ ls) := by
  intro ls
  induction ls with
  | nil => intro st; simp only [scanLoop, List.append_nil]
  | cons l rest ih =>
    intro st
    have hl : lineStage mode st l = .skipLine { st with out := st.out ++ [l] } := by
      simp [lineStage, h]
    simp only [scanLoop, hl, ih]
    simp

theorem headerScan_split :
    ∀ ls : List (List Char), (headerScan true ls).1 ++ (headerScan true ls).2 = ls := by
  intro ls
  induction ls with
  | nil => simp [headerScan]
  | cons l rest ih =>
    by_cases h : l = [] <;> simp [headerScan, h, ih]

theorem modeOf_raw (v : Int) (h0 : v ≠ 0) (h1 : v ≠ 1) (h2 : v ≠ 2) :
    modeOf v = ⟨true, true, false, false, false, false, false, false, false,
                false, false, false, false⟩ := by
  simp [modeOf, h0, h1, h2]

theorem rawRun_ok (decode : List Char → Option testEvent) (v : Int)
    (ls : List (List Char)) (h0 : v ≠ 0) (h1 : v ≠ 1) (h2 : v ≠ 2) :
    cleanupLog decode v ls = .ok ls := by
  rw [cleanupLog, modeOf_raw v h0 h1 h2]
  rw [scanLoop_raw _ _ rfl]
  simp [initSt, headerScan_split]

theorem rawBytes_eq (b : List Char) :
    rawBytes b = joinLines (splitLines b) := by
  rw [rawBytes, rawRun_ok _ 3 _ (by decide) (by decide) (by decide)]
  rfl

theorem mem_dropCRf {x : Char} {l : List Char} (h : x ∈ dropCRf l) : x ∈ l := by
  unfold dropCRf at h
  split at h
  · exact (List.dropLast_sublist l).subset h
  · exact h

theorem splitLinesAux_no_nl :
    ∀ (b acc : List Char), '\n' ∉ acc →
      ∀ l ∈ splitLinesAux b acc, '\n' ∉ l := by
  intro b
  induction b with
  | nil =>
    intro acc hacc l hl
    simp only [splitLinesAux] at hl
    split at hl
    · simp at hl
    · simp at hl
      subst hl
      intro hn
      exact hacc (by simpa using mem_dropCRf hn)
  | cons c rest ih =>
    intro acc hacc l hl
    simp only [splitLinesAux] at hl
    split at hl
    · rename_i hc
      rcases List.mem_cons.mp hl with h | h
      · subst h
        intro hn
        exact hacc (by simpa using mem_dropCRf hn)
      · exact ih [] (by simp) l h
    · rename_i hc
      refine ih (c :: acc) ?_ l hl
      intro hmem
      rcases List.mem_cons.mp hmem with h | h
      · exact hc h.symm
      · exact hacc h

theorem splitLines_no_nl (b : List Char) : ∀ l ∈ splitLines b, '\n' ∉ l :=
  splitLinesAux_no_nl b [] (by simp)

theorem splitLinesAux_join :
    ∀ (l acc rest : List Char), '\n' ∉ l →
      splitLinesAux (l ++ '\n' :: rest) acc =
        dropCRf (acc.reverse ++ l) :: splitLinesAux rest [] := by
  intro l
  induction l with
  | nil => intro acc rest _; simp [splitLinesAux]
  | cons c l2 ih =>
    intro acc rest hnl
    have hc : ¬(c = '\n') := by
      intro h
      exact hnl (by simp [h])
    simp only [List.cons_append, splitLinesAux, if_neg hc, List.append_eq]
    rw [ih (c :: acc) rest (by intro h; exact hnl (List.mem_cons_of_mem _ h))]
    simp

theorem splitLines_joinLines :
    ∀ ls : List (List Char),
      (∀ l ∈ ls, '\n' ∉ l ∧ l.getLast? ≠ some '\r') →
      splitLines (joinLines ls) = ls := by
  intro ls
  induction ls with
  | nil => intro _; simp [joinLines, splitLines, splitLinesAux]
  | cons l rest ih =>
    intro h
    have hl := h l (by simp)
    rw [joinLines, splitLines, splitLinesAux_join l [] (joinLines rest) hl.1]
    have : dropCRf l = l := by
      unfold dropCRf
      rw [if_neg hl.2]
    rw [List.reverse_nil, List.nil_append, this]
    exact congrArg _ (ih fun x hx => h x (by simp [hx]))

/-- C4 counterexample: raw-mode output is not byte-for-byte equal to the
input for every stream.  A final line with no terminating newline gets one
appended, and a carriage-return/newline pair is rewritten to a bare newline
(bufio.ScanLines drops the carriage return, fmt.Printf writes "\n"). -/
theorem c4_counterexample :
    rawBytes "a".toList ≠ "a".toList ∧
    rawBytes "a\r\n".toList = "a\n".toList := by
  constructor
  · decide
  · decide

/-- C4 amended: raw mode (any verbosity level other than 0, 1, 2) never
drops lines — the output lines are exactly the input lines, for every input
and every decode oracle; consequently the output bytes equal the input
bytes whenever the input is newline-terminated with no carriage return
before a newline (i.e. it is exactly the join of its scanner lines). -/
theorem c4_amended :
    ∀ (decode : List Char → Option testEvent) (v : Int)
      (ls : List (List Char)) (b : List Char),
      v ≠ 0 → v ≠ 1 → v ≠ 2 →
      cleanupLog decode v ls = .ok ls ∧
      (joinLines (splitLines b) = b → rawBytes b = b) := by
  intro decode v ls b h0 h1 h2
  refine ⟨rawRun_ok decode v ls h0 h1 h2, ?_⟩
  intro hb
  rw [rawBytes_eq, hb]

/-- C4 witness: the amended theorem applied to a concrete verbosity, line
list and byte stream. -/
theorem c4_amended_witness :
    cleanupLog (fun _ => none) 3 ["a".toList, [], "b".toList] =
      .ok ["a".toList, [], "b".toList] ∧
    rawBytes "ab\ncd\n".toList = "ab\ncd\n".toList := by
  have h := c4_amended (fun _ => none) 3 ["a".toList, [], "b".toList]
    "ab\ncd\n".toList (by decide) (by decide) (by decide)
  exact ⟨h.1, h.2 (by decide)⟩

/-- C9 counterexample: re-running the normalizer at raw verbosity on its own
raw output does not always reproduce the same bytes: on input "a\r\r\n" the
first run prints "a\r\n" (one carriage return dropped by the line scanner),
and the second run prints "a\n". -/
theorem c9_counterexample :
    rawBytes (rawBytes "a\r\r\n".toList) ≠ rawBytes "a\r\r\n".toList := by
  decide

/-- C9 amended: re-running the normalizer at raw verbosity on its own raw
output reproduces the same bytes for every input stream none of whose
scanner lines ends in a carriage return (in particular any stream without a
"\r\r\n" sequence and not ending in "\r\r"). -/
theorem c9_amended :
    ∀ b : List Char, (∀ l ∈ splitLines b, l.getLast? ≠ some '\r') →
      rawBytes (rawBytes b) = rawBytes b := by
  intro b hb
  rw [rawBytes_eq b, rawBytes_eq (joinLines (splitLines b)),
      splitLines_joinLines _ (fun l hl => ⟨splitLines_no_nl b l hl, hb l hl⟩)]

/-- C9 witness: the amended theorem applied to a concrete stream. -/
theorem c9_amended_witness :
    (∀ l ∈ splitLines "ab\ncd".toList, l.getLast? ≠ some '\r') ∧
    rawBytes (rawBytes "ab\ncd".toList) = rawBytes "ab\ncd".toList :=
  ⟨by decide, c9_amended "ab\ncd".toList (by decide)⟩

/-- C10: the context-tracker update is partial: it fails (the Go code
panics with an index or slice bound error) exactly when the record has more
tags than its indent or its indent exceeds the stack's fixed capacity of
20, and is total on all other records. -/
theorem c10_treeize_partiality :
    ∀ (stack : List (List Char)) (ll : logline),
      treeize stack ll = none ↔
        ¬(ll.tags.length ≤ ll.indent ∧ ll.indent ≤ 20) := by
  intro stack ll
  rw [treeize]
  split_ifs with h
  · simp only [reduceCtorEq, false_iff, not_not]
    exact ⟨h.2, h.1⟩
  · simp only [true_iff]
    intro hc
    exact h ⟨hc.2, hc.1⟩

/-- C7: after a successful context-tracker update for a record with indent d
and tags t0..tk (d at least k+1), the stack has length exactly d, its final
k+1 slots are the tags in order, and every slot from the previous stack
length up to the region the tags overwrite is zero-filled. -/
theorem c7_context_path :
    ∀ (stack : List (List Char)) (ll : logline) (st' : List (List Char)),
      ll.tags.length ≤ ll.indent →
      treeize stack ll = some st' →
      st'.length = ll.indent ∧
      st'.drop (ll.indent - ll.tags.length) = ll.tags ∧
      (∀ i, stack.length ≤ i → i + ll.tags.length < ll.indent →
        st'[i]? = some []) := by
  intro stack ll st' hk h
  rw [treeize] at h
  split_ifs at h with hc
  have hst : st' = (stack.take ll.indent ++
      List.replicate (ll.indent - stack.length) []).take
      (ll.indent - ll.tags.length) ++ ll.tags := by
    exact (Option.some.injEq _ _ ▸ h).symm
  have hs1len : (stack.take ll.indent ++
      List.replicate (ll.indent - stack.length) ([] : List Char)).length
      = ll.indent := by
    simp [List.length_take]
    omega
  have hAlen : ((stack.take ll.indent ++
      List.replicate (ll.indent - stack.length) ([] : List Char)).take
      (ll.indent - ll.tags.length)).length = ll.indent - ll.tags.length := by
    rw [List.length_take, hs1len]
    omega
  refine ⟨?_, ?_, ?_⟩
  · rw [hst, List.length_append, hAlen]
    omega
  · rw [hst]
    have hd := List.drop_left ((stack.take ll.indent ++
        List.replicate (ll.indent - stack.length) ([] : List Char)).take
        (ll.indent - ll.tags.length)) ll.tags
    rw [hAlen] at hd
    exact hd
  · intro i hi1 hi2
    rw [hst, List.getElem?_append, if_pos (by rw [hAlen]; omega),
        List.getElem?_take, if_pos (by omega), List.getElem?_append,
        if_neg (by rw [List.length_take]; omega), List.getElem?_replicate,
        if_pos (by rw [List.length_take]; omega)]

/-- C7 witness: the theorem applied to a concrete stack and record (indent
4, two tags, over a stack of length 2). -/
theorem c7_witness :
    treeize ["a".toList, "b".toList]
      ⟨[], 0, 4, ["c".toList, "d".toList], [], [], none⟩ =
      some ["a".toList, "b".toList, "c".toList, "d".toList] ∧
    (["a".toList, "b".toList, "c".toList, "d".toList] : List (List Char)).length = 4 ∧
    (["a".toList, "b".toList, "c".toList, "d".toList] : List (List Char)).drop 2 =
      ["c".toList, "d".toList] := by
  have h := c7_context_path ["a".toList, "b".toList]
    ⟨[], 0, 4, ["c".toList, "d".toList], [], [], none⟩
    ["a".toList, "b".toList, "c".toList, "d".toList] (by decide) (by decide)
  exact ⟨by decide, h.1, h.2.1⟩

theorem countTabs_stop (rest : List Char) (h : rest.head? ≠ some '\t') :
    countTabs rest = (0, rest) := by
  cases rest with
  | nil => rfl
  | cons c r =>
    rw [countTabs, if_neg]
    intro hc
    exact h (by simp [hc])

theorem countTabs_replicate (n : Nat) (rest : List Char)
    (h : rest.head? ≠ some '\t') :
    countTabs (List.replicate n '\t' ++ rest) = (n, rest) := by
  induction n with
  | zero => simpa using countTabs_stop rest h
  | succ k ih => simp [List.replicate_succ, countTabs, ih]

theorem expectByteF_same (b : Char) (r : List Char) :
    expectByteF b (b :: r) = some r := by
  simp [expectByteF]

theorem expectLenF_two (a b : Char) (r : List Char) :
    expectLenF 2 (a :: b :: r) = some ([a, b], r) := by
  simp [expectLenF]

theorem expectLenF_one (a : Char) (r : List Char) :
    expectLenF 1 (a :: r) = some ([a], r) := by
  simp [expectLenF]

theorem atoi_two_digits (c d : Char) (hc : c.isDigit = true) (hd : d.isDigit = true) :
    atoi [c, d] = ((10 * (c.toNat - 48) + (d.toNat - 48) : Nat) : Int) := by
  have hc1 : ¬(c = '-') := by rintro rfl; revert hc; decide
  have hc2 : ¬(c = '+') := by rintro rfl; revert hc; decide
  rw [atoi, if_neg hc1, if_neg hc2, if_pos (by simp [hc, hd])]
  simp only [digitsVal, List.foldl]
  congr 1
  omega

/-- C8: every line of the fixed grammar shape — a bracketed six-character
timestamp, one flag byte, a colon, n leading tabs and a remainder that does
not begin with a tab — parses successfully (whatever the six timestamp
characters are), its timestampSeconds is hour*3600 + minute*60 + second of
the prefix under the lenient strconv.Atoi (a field that fails to parse
counts as 0, and a pair of digits counts as its two-digit value), and its
indentDepth is exactly the number of leading tabs. -/
theorem c8_line_grammar :
    ∀ (h1 h2 m1 m2 s1 s2 f : Char) (n : Nat) (rest : List Char),
      rest.head? ≠ some '\t' →
      ∃ ll, logparse ('[' :: h1 :: h2 :: ':' :: m1 :: m2 :: ':' :: s1 :: s2 ::
          ']' :: f :: ':' :: (List.replicate n '\t' ++ rest)) = .ok ll ∧
        ll.time = atoi [h1, h2] * (60 * 60) + atoi [m1, m2] * 60 + atoi [s1, s2] ∧
        ll.indent = n ∧
        (∀ c d : Char, c.isDigit = true → d.isDigit = true →
          atoi [c, d] = ((10 * (c.toNat - 48) + (d.toNat - 48) : Nat) : Int)) := by
  intro h1 h2 m1 m2 s1 s2 f n rest hrest
  refine ⟨⟨'[' :: h1 :: h2 :: ':' :: m1 :: m2 :: ':' :: s1 :: s2 ::
      ']' :: f :: ':' :: (List.replicate n '\t' ++ rest),
      atoi [h1, h2] * (60 * 60) + atoi [m1, m2] * 60 + atoi [s1, s2],
      n, (parseTags rest).1, (parseTags rest).2, [], none⟩, ?_, rfl, rfl,
      atoi_two_digits⟩
  rw [logparse, if_neg (by simp)]
  simp only [expectByteF_same, expectLenF_two, expectLenF_one,
    countTabs_replicate n rest hrest]

/-- C8 witness: the theorem applied to the concrete line
"[07:03:09]W:" followed by one tab and "x". -/
theorem c8_witness :
    ∃ ll, logparse ('[' :: '0' :: '7' :: ':' :: '0' :: '3' :: ':' :: '0' ::
        '9' :: ']' :: 'W' :: ':' :: (List.replicate 1 '\t' ++ "x".toList)) =
        .ok ll ∧ ll.time = 7 * 3600 + 3 * 60 + 9 ∧ ll.indent = 1 := by
  obtain ⟨ll, hok, ht, hi, _⟩ := c8_line_grammar '0' '7' '0' '3' '0' '9' 'W' 1
    "x".toList (by decide)
  exact ⟨ll, hok, by rw [ht]; decide, hi⟩

/-- C5 counterexample: the empty line does not start with a left bracket,
yet the parser fails fatally on it (the noise guard requires a nonempty
line) instead of returning nil; and the sentinel line "Current time: x",
which also does not start with a left bracket, is echoed into the non-raw
(silent) output instead of being silently skipped. -/
theorem c5_counterexample :
    (logparse []).isFatal = true ∧
    cleanupLog (fun _ => none) 0 [[], "Current time: x".toList] =
      .ok [[], "Current time: x".toList] := by
  exact ⟨by decide, by decide⟩

/-- C5 amended: every nonempty line that does not start with a left bracket
and is not one of the two sentinel lines is parsed as nil and silently
skipped by the non-raw scan: the scan continues on the remaining lines with
a completely unchanged state (no output, no stack or flag change).  The
empty line instead fails the parse fatally, and the two sentinel lines are
echoed and end the scan. -/
theorem c5_amended :
    ∀ (decode : List Char → Option testEvent) (mode : Mode) (st : ScanSt)
      (l : List Char) (rest : List (List Char)),
      mode.rawText = false → l ≠ [] → l.head? ≠ some '[' →
      endsWithL " tests processed.".toList l = false →
      startsWithL "Current time: ".toList l = false →
      logparse l = .noise ∧
      scanLoop decode mode st (l :: rest) = scanLoop decode mode st rest := by
  intro decode mode st l rest hraw hl hhead hts hct
  have hn : logparse l = .noise := by
    rw [logparse, if_pos ⟨List.length_pos.mpr hl, hhead⟩]
  refine ⟨hn, ?_⟩
  have hls : lineStage mode st l = .skipLine st := by
    simp only [lineStage, hraw, hts, hct, hn, Bool.false_eq_true, if_false]
  simp only [scanLoop, hls]

/-- C5 witness: the amended theorem applied to the concrete line "zzz"
under the silent policy. -/
theorem c5_amended_witness :
    logparse "zzz".toList = .noise ∧
    scanLoop (fun _ => none) (modeOf 0) initSt ["zzz".toList] =
      scanLoop (fun _ => none) (modeOf 0) initSt [] :=
  c5_amended (fun _ => none) (modeOf 0) initSt "zzz".toList []
    (by decide) (by decide) (by decide) (by decide) (by decide)

/-- Swap the two spellings of the primary-build-step tag in one slot. -/
def swapStepTag (s : List Char) : List Char :=
  if s = sStep22 then sStep11 else if s = sStep11 then sStep22 else s

/-- Swap the two spellings of the primary-build-step tag in a whole stack. -/
def swapStepTags (stack : List (List Char)) : List (List Char) :=
  stack.map swapStepTag

theorem swapStepTag_eq22 (x : List Char) :
    (swapStepTag x = sStep22) ↔ (x = sStep11) := by
  unfold swapStepTag
  split_ifs with h1 h2
  · subst h1; decide
  · subst h2; decide
  · simp [h1, h2]

theorem swapStepTag_eq11 (x : List Char) :
    (swapStepTag x = sStep11) ↔ (x = sStep22) := by
  unfold swapStepTag
  split_ifs with h1 h2
  · subst h1; decide
  · subst h2; decide
  · simp [h1, h2]

theorem topOfStackIs_swap22 (stack : List (List Char)) :
    topOfStackIs (swapStepTags stack) sStep22 = topOfStackIs stack sStep11 := by
  unfold topOfStackIs swapStepTags
  rw [List.getLast?_map]
  cases h : stack.getLast? with
  | none => simp
  | some x => simp [swapStepTag_eq22 x]

theorem topOfStackIs_swap11 (stack : List (List Char)) :
    topOfStackIs (swapStepTags stack) sStep11 = topOfStackIs stack sStep22 := by
  unfold topOfStackIs swapStepTags
  rw [List.getLast?_map]
  cases h : stack.getLast? with
  | none => simp
  | some x => simp [swapStepTag_eq11 x]

theorem stackHas_swap22 (stack : List (List Char)) :
    stackHas (swapStepTags stack) sStep22 = stackHas stack sStep11 := by
  unfold stackHas swapStepTags
  simp only [decide_eq_decide, List.mem_map]
  constructor
  · rintro ⟨a, ha, he⟩
    exact (swapStepTag_eq22 a).mp he ▸ ha
  · intro h
    exact ⟨sStep11, h, by decide⟩

theorem stackHas_swap11 (stack : List (List Char)) :
    stackHas (swapStepTags stack) sStep11 = stackHas stack sStep22 := by
  unfold stackHas swapStepTags
  simp only [decide_eq_decide, List.mem_map]
  constructor
  · rintro ⟨a, ha, he⟩
    exact (swapStepTag_eq11 a).mp he ▸ ha
  · intro h
    exact ⟨sStep22, h, by decide⟩

/-- C2 counterexample: under the silent policy the two spellings of the
primary-build-step tag are not interchangeable.  Two runs on the same log
that differ only in the spelling of the tag behave differently: with
"Step 2/2" the post-make-test record is displayed, with "Step 1/1" nothing
is displayed at all, because the innermost-slot-only restriction tests only
the "Step 2/2" spelling. -/
theorem c2_counterexample :
    cleanupLog (fun _ => none) 0
      [[], "[00:00:00]i:\t[Step 2/2] + make test".toList,
       "[00:00:01]i:\t[Step 2/2] hello".toList] =
      .ok [[], dtHeader, "    \t+ make test".toList, "   1\thello".toList] ∧
    cleanupLog (fun _ => none) 0
      [[], "[00:00:00]i:\t[Step 1/1] + make test".toList,
       "[00:00:01]i:\t[Step 1/1] hello".toList] =
      .ok [[]] := by
  exact ⟨by decide, by decide⟩

/-- C2 amended: the two spellings are fully equivalent in the build-step
predicate (innermost slot, used to gate event decoding and phase markers)
and in the any-ancestor filter of the step-2 display rule — swapping every
"Step 2/2" for "Step 1/1" and vice versa in the context path changes
neither — but the innermost-slot-only restriction of the silent and
verbose policies accepts exactly the records whose innermost slot is
"Step 2/2", rejecting "Step 1/1" there. -/
theorem c2_amended :
    ∀ stack : List (List Char),
      buildStepOf (swapStepTags stack) = buildStepOf stack ∧
      inStep2 (swapStepTags stack) = inStep2 stack ∧
      shouldShowStep2 (modeOf 0) (stack ++ [sStep22]) true true false = true ∧
      shouldShowStep2 (modeOf 0) (stack ++ [sStep11]) true true false = false := by
  intro stack
  refine ⟨?_, ?_, ?_, ?_⟩
  · rw [buildStepOf, buildStepOf, topOfStackIs_swap22, topOfStackIs_swap11,
        Bool.or_comm]
  · rw [inStep2, inStep2, stackHas_swap22, stackHas_swap11, Bool.or_comm]
  · have h : topOfStackIs (stack ++ [sStep22]) sStep22 = true := by
      simp [topOfStackIs, List.getLast?_concat]
    simp [shouldShowStep2, modeOf, h]
  · have h : topOfStackIs (stack ++ [sStep11]) sStep22 = false := by
      simp only [topOfStackIs, List.getLast?_concat]
      decide
    simp [shouldShowStep2, modeOf, h]

/-- C3 counterexample: under the test-output policy a single record whose
path is [Step 1/2, Test Output] is emitted twice — once by the Step 1/2
ancestor rule (its text, through the latched emitter) and once by the
Test Output rule (its auxiliary line, which bypasses the latch). -/
theorem c3_counterexample :
    cleanupLog (fun _ => none) 2
      [[], "[00:00:00]i:\t\t[Step 1/2] [Test Output] hello".toList,
       "AUX".toList] =
      .ok [[], dtHeader, "    \thello".toList, "    \tAUX".toList] := by
  decide

/-- C3 amended: the already-emitted latch only scopes the whole-record
emitters: once a record has been emitted, the root, Step 1/2, step-2 and
"Go " display rules emit nothing further for it, and any of those rules
that does emit sets the latch.  Rules that emit derived fragments (the
auxiliary Test Output line, a structured event's output fragment, the
only-failed aggregation) bypass the latch, so one record can produce more
than one output line when such a rule fires alongside a latched one. -/
theorem c3_amended :
    ∀ (mode : Mode) (ll : logline) (st : ScanSt) (bs : Bool),
      (ruleShowRoot mode ll (true, st)).2 = st ∧
      (ruleShowStep1 mode ll (true, st)).2 = st ∧
      (ruleStep2 mode ll (true, st)).2 = st ∧
      (ruleGoLine mode ll bs (true, st)).2 = st ∧
      (emitTextF ll (false, st)).1 = true ∧
      (emitRawF ll (false, st)).1 = true := by
  intro mode ll st bs
  have hT : ∀ st0 : ScanSt, emitTextF ll (true, st0) = (true, st0) := fun _ => rfl
  have hR : ∀ st0 : ScanSt, emitRawF ll (true, st0) = (true, st0) := fun _ => rfl
  refine ⟨?_, ?_, ?_, ?_, rfl, rfl⟩
  · simp only [ruleShowRoot, hT, hR, ite_self]
  · simp only [ruleShowStep1, hT, hR, ite_self]
  · simp only [ruleStep2, hT, hR, ite_self]
  · simp only [ruleGoLine, hT, ite_self]

/-- C6 counterexample: under the silent policy a record inside a primary
build step occurring before any make-test marker is nevertheless emitted
when its text starts with "Go ": the "Go " display rule does not consult
the make-test phase flag. -/
theorem c6_counterexample :
    cleanupLog (fun _ => none) 0
      [[], "[00:00:00]i:\t[Step 2/2] Go x".toList] =
      .ok [[], dtHeader, "    \tGo x".toList] := by
  decide

/-- C6 amended: under the silent policy, before the make-test flag is set a
record is fully suppressed provided it carries no decoded structured event
and its text does not start with "Go "; records with a decoded event are
handled by the only-failed aggregation and "Go "-prefixed build-step lines
by the Go-summary rule, both regardless of the make-test phase flag. -/
theorem c6_amended :
    ∀ (ll : logline) (st : ScanSt) (bs : Bool),
      st.afterMakeTest = false →
      startsWithL "Go ".toList ll.text = false →
      ll.testEvent = none →
      processRecord (modeOf 0) ll bs st = st := by
  intro ll st bs hmk hgo hev
  have hm : modeOf 0 = ⟨false, true, false, false, false, false, true, false,
      false, true, true, true, true⟩ := by simp [modeOf]
  have hgo2 : startsWithL ['G', 'o', ' '] ll.text = false := hgo
  simp [processRecord, ruleShowRoot, ruleShowStep1, ruleStep2, ruleTestOutput,
    ruleGoLine, ruleOutputActions, ruleFailLine, ruleOnlyFailed, hm, hmk, hgo,
    hgo2, hev, shouldShowStep2]

/-- C6 witness: the amended theorem applied to a concrete record before the
make-test marker. -/
theorem c6_amended_witness :
    initSt.afterMakeTest = false ∧
    processRecord (modeOf 0)
      ⟨"[x".toList, 0, 0, [], "hello".toList, [], none⟩ true initSt = initSt :=
  ⟨by decide, c6_amended ⟨"[x".toList, 0, 0, [], "hello".toList, [], none⟩
    initSt true (by decide) (by decide) rfl⟩

/-- Concrete events and decode oracle for the two event sequences of the
spec: a package-level output event carrying "x", a package-level fail, and
a package-level pass with elapsed 1.5 seconds, all for package A. -/
def teOutputA : testEvent := ⟨[], "output".toList, ['A'], [], 0, ['x']⟩

def teFailA : testEvent := ⟨[], "fail".toList, ['A'], [], 0, []⟩

def tePassA : testEvent := ⟨[], "pass".toList, ['A'], [], mkRat 3 2, []⟩

def jsonOut : List Char := "\x7bo\x7d".toList

def jsonFail : List Char := "\x7bf\x7d".toList

def jsonPass : List Char := "\x7bp\x7d".toList

/-- Decode oracle mapping the three JSON payloads above to their events. -/
def decOracle (t : List Char) : Option testEvent :=
  if t = jsonOut then some teOutputA
  else if t = jsonFail then some teFailA
  else if t = jsonPass then some tePassA
  else none

def outLine : List Char := "[00:00:00]i:\t[Step 2/2] \x7bo\x7d".toList

def failLine : List Char := "[00:00:00]i:\t[Step 2/2] \x7bf\x7d".toList

def passLine : List Char := "[00:00:00]i:\t[Step 2/2] \x7bp\x7d".toList

/-- The buffer flush emits exactly the output fragments of the buffered
output events, in buffer order, each at its own record's time. -/
theorem dumpCachedF_spec :
    ∀ (L : List (logline × testEvent)) (s : ScanSt),
      dumpCachedF L s =
        (L.filterMap (fun c =>
          if c.2.Action = "output".toList then some (c.1.time, c.2.Output)
          else none)).foldl (fun s2 x => emitMassaged x.1 x.2 s2) s := by
  intro L
  induction L with
  | nil => intro s; rfl
  | cons c rest ih =>
    intro s
    by_cases h : c.2.Action = "output".toList
    · simp only [dumpCachedF, if_pos h, List.filterMap_cons, ih, List.foldl_cons]
    · simp only [dumpCachedF, if_neg h, List.filterMap_cons, ih]

/-- C1: the only-failed aggregation.  Every decoded event is appended to the
pending buffer before dispatch; for a package-level event (empty test
identifier): pass emits package, a tab and the elapsed seconds and clears
the buffer; skip emits package and "[no test files]" and clears; output
emits nothing and stays buffered; fail first flushes the buffered output
fragments (in buffer order, each at its own record's time, per
dumpCachedF_spec) and then emits package and FAIL and clears; any other
action emits package and the action and clears.  The two event sequences of
the spec produce exactly the stated lines: "x" then "A\tFAIL" (massaged)
for output-then-fail, and only "A\t1.5s" for output-then-pass. -/
theorem c1_only_failed_package_dispatch :
    (∀ (mode : Mode) (ll : logline) (te : testEvent) (st : ScanSt) (e : Bool),
      mode.showOnlyFailed = true →
      ll.testEvent = some te →
      te.Test = [] →
      ((te.Action = "output".toList →
        ruleOnlyFailed mode ll (e, st) =
          (e, { st with cached := st.cached ++ [(ll, te)] })) ∧
       (te.Action = "pass".toList →
        ruleOnlyFailed mode ll (e, st) =
          (e, { emitMassaged ll.time
                  (te.Package ++ '\t' :: (formatG te.Elapsed ++ ['s']))
                  { st with cached := st.cached ++ [(ll, te)] } with
                cached := [] })) ∧
       (te.Action = "skip".toList →
        ruleOnlyFailed mode ll (e, st) =
          (e, { emitMassaged ll.time (te.Package ++ "\t[no test files]".toList)
                  { st with cached := st.cached ++ [(ll, te)] } with
                cached := [] })) ∧
       (te.Action = "fail".toList →
        ruleOnlyFailed mode ll (e, st) =
          (e, { emitMassaged ll.time (te.Package ++ "\tFAIL".toList)
                  (dumpCachedF (st.cached ++ [(ll, te)])
                    { st with cached := [] }) with cached := [] })) ∧
       (te.Action ≠ "output".toList → te.Action ≠ "pass".toList →
        te.Action ≠ "skip".toList → te.Action ≠ "fail".toList →
        ruleOnlyFailed mode ll (e, st) =
          (e, { emitMassaged ll.time (te.Package ++ '\t' :: te.Action)
                  { st with cached := st.cached ++ [(ll, te)] } with
                cached := [] })))) ∧
    cleanupLog decOracle 0 [[], outLine, failLine] =
      .ok [[], dtHeader, "    \tx".toList, "    \tA\tFAIL".toList] ∧
    cleanupLog decOracle 0 [[], outLine, passLine] =
      .ok [[], dtHeader, "    \tA\t1.5s".toList] := by
  refine ⟨?_, by decide, by decide⟩
  intro mode ll te st e hOF hev hT
  refine ⟨?_, ?_, ?_, ?_, ?_⟩
  · intro ha
    simp [ruleOnlyFailed, hev, hOF, hT, ha]
  · intro ha
    simp [ruleOnlyFailed, hev, hOF, hT, ha]
  · intro ha
    simp [ruleOnlyFailed, hev, hOF, hT, ha]
  · intro ha
    simp [ruleOnlyFailed, hev, hOF, hT, ha]
  · intro h1 h2 h3 h4
    have e1 : decide (te.Action = "pass".toList) = false := decide_eq_false h2
    have e2 : decide (te.Action = "skip".toList) = false := decide_eq_false h3
    have e3 : decide (te.Action = "output".toList) = false := decide_eq_false h1
    have e4 : decide (te.Action = "fail".toList) = false := decide_eq_false h4
    have e5 : decide (te.Test = ([] : List Char)) = true := decide_eq_true hT
    simp only [ruleOnlyFailed, hev, hOF, e1, e2, e3, e4, e5,
      Bool.false_eq_true, if_false, eq_self_iff_true, if_true]

/-- C1 witness: the dispatch theorem applied to a concrete package-level
output event over the initial state: the event is buffered and nothing is
emitted. -/
theorem c1_witness :
    (modeOf 0).showOnlyFailed = true ∧
    ruleOnlyFailed (modeOf 0) ⟨[], 0, 0, [], jsonOut, [], some teOutputA⟩
      (false, initSt) =
      (false, { initSt with
                cached := initSt.cached ++
                  [(⟨[], 0, 0, [], jsonOut, [], some teOutputA⟩, teOutputA)] }) :=
  ⟨by decide,
    ((c1_only_failed_package_dispatch).1 (modeOf 0)
      ⟨[], 0, 0, [], jsonOut, [], some teOutputA⟩ teOutputA initSt false
      (by decide) rfl rfl).1 rfl⟩

end TCRun
